import Mathlib

/-!
Verification development for the synthesis core of `echo_synthv6.cpp`.

The C++ source is shallowly embedded: envelope state, elapsed time and the
keyboard registry use exact rational arithmetic (`ℚ`), while the oscillator,
mixing and reverb signal path (which involve `tanh` and `2^x`) live in `ℝ`.
Each definition carries a comment pointing at the source lines it embeds.
-/

namespace EchoSynth

/-- Constant from line 13 of the source: `SAMPLE_RATE = 44100`. -/
def SAMPLE_RATE : ℕ := 44100

/-- Constant from line 14 of the source: `VOLUME = 0.65f`. -/
def VOLUME : ℚ := 65 / 100

/-- Constant from line 15 of the source: `NUM_VOICES = 121`. -/
def NUM_VOICES : ℕ := 121

/-- Constant from line 16 of the source: `DELAY_SIZE = SAMPLE_RATE * 2`. -/
def DELAY_SIZE : ℕ := SAMPLE_RATE * 2

/-- Constant from line 18 of the source: `REVERB_DECAY = 0.5f`. -/
def REVERB_DECAY : ℚ := 1 / 2

/-- Constant from line 21 of the source: `ATTACK_TIME = 0.01f`. -/
def ATTACK_TIME : ℚ := 1 / 100

/-- Constant from line 22 of the source: `DECAY_TIME = 0.1f`. -/
def DECAY_TIME : ℚ := 1 / 10

/-- Constant from line 23 of the source: `SUSTAIN_LEVEL = 0.8f`. -/
def SUSTAIN_LEVEL : ℚ := 4 / 5

/-- Constant from line 24 of the source: `RELEASE_TIME = 0.5f`. -/
def RELEASE_TIME : ℚ := 1 / 2

/-- Per-sample time increment, line 70 of the source: `dt = 1.0 / SAMPLE_RATE`. -/
def dt : ℚ := 1 / (SAMPLE_RATE : ℚ)

/-- Global `reverbFeedback`, line 50 of the source: initialised to `REVERB_DECAY`
and never written again. -/
def reverbFeedback : ℚ := REVERB_DECAY

/-- Envelope stages, line 36 of the source. -/
inductive EnvelopeStage
  | OFF
  | ATTACK
  | DECAY
  | SUSTAIN
  | RELEASE
deriving DecidableEq, Repr

export EnvelopeStage (OFF ATTACK DECAY SUSTAIN RELEASE)

/-- Voice record, lines 38-45 of the source, with the C++ member initialisers
as default field values. -/
structure Voice where
  note : ℤ := 0
  phase : ℚ := 0
  time : ℚ := 0
  stage : EnvelopeStage := OFF
  envelope : ℚ := 0
  keyDown : Bool := false
deriving DecidableEq, Repr

/-- Line 52-54 of the source: `midiToFreq(n) = 440 * 2^((n - 69)/12)`. -/
noncomputable def midiToFreq (note : ℤ) : ℝ :=
  440 * (2 : ℝ) ^ (((note : ℝ) - 69) / 12)

/-- Lines 57-63 of the source: sawtooth with `tanh` saturation,
`tanh((2*(t*f - floor(t*f + 0.5))) * 6)`. -/
noncomputable def getSaw (t freq : ℝ) : ℝ :=
  Real.tanh ((2 * (t * freq - (⌊t * freq + 1/2⌋ : ℤ))) * 6)

/-- One audio-callback update of a single voice's state (lines 78-111 of the
source): skip `OFF` voices, advance `time` by `dt`, then run the envelope
switch with its clamps and stage transitions. -/
def stepVoice (v : Voice) : Voice :=
  match v.stage with
  | OFF => v
  | ATTACK =>
      let v1 : Voice := { v with time := v.time + dt }
      let e := v1.envelope + 1 / (ATTACK_TIME * (SAMPLE_RATE : ℚ))
      if 1 ≤ e then { v1 with envelope := 1, stage := DECAY }
      else { v1 with envelope := e }
  | DECAY =>
      let v1 : Voice := { v with time := v.time + dt }
      let e := v1.envelope - (1 - SUSTAIN_LEVEL) / (DECAY_TIME * (SAMPLE_RATE : ℚ))
      if e ≤ SUSTAIN_LEVEL then { v1 with envelope := SUSTAIN_LEVEL, stage := SUSTAIN }
      else { v1 with envelope := e }
  | SUSTAIN => { v with time := v.time + dt }
  | RELEASE =>
      let v1 : Voice := { v with time := v.time + dt }
      let e := v1.envelope - SUSTAIN_LEVEL / (RELEASE_TIME * (SAMPLE_RATE : ℚ))
      if e ≤ 0 then { v1 with envelope := 0, stage := OFF }
      else { v1 with envelope := e }

/-- Whether the voice contributes a sample in this callback iteration: it is
skipped by the `continue` on line 78 when already `OFF`, and by the `continue`
on line 106 when a `RELEASE` envelope reaches or crosses 0 this sample. -/
def contributes (v : Voice) : Bool :=
  match v.stage with
  | OFF => false
  | RELEASE => decide (¬ v.envelope - SUSTAIN_LEVEL / (RELEASE_TIME * (SAMPLE_RATE : ℚ)) ≤ 0)
  | _ => true

/-- Lines 114-119 of the source: the detuned oscillator bank, offsets
`-13..13` at `0.005` Hz per step, summed at the voice's elapsed time. -/
noncomputable def bankSum (t freq : ℝ) : ℝ :=
  ∑ i ∈ Finset.Icc (-13 : ℤ) 13, getSaw t (freq + (i : ℝ) * (5 / 1000))

/-- Line 121 of the source: the bank sum is divided by `NUM_VOICES`. -/
noncomputable def voiceSample (t freq : ℝ) : ℝ :=
  bankSum t freq / (NUM_VOICES : ℝ)

/-- The amount this voice adds to `mixed` in one callback iteration
(lines 78-122 of the source): zero when skipped, otherwise the bank sample
at the post-update time, times the post-update envelope. -/
noncomputable def voiceContrib (v : Voice) : ℝ :=
  if contributes v then
    voiceSample ((stepVoice v).time : ℝ) (midiToFreq v.note) * ((stepVoice v).envelope : ℝ)
  else 0

/-- The accumulation loop over the voice registry's values (lines 72-124 of
the source): each contributing voice adds its sample-times-envelope to
`mixed` and bumps `active`. -/
noncomputable def mixLoop : List Voice → ℝ → ℕ → ℝ × ℕ
  | [], m, a => (m, a)
  | v :: vs, m, a =>
      if contributes v then mixLoop vs (m + voiceContrib v) (a + 1)
      else mixLoop vs m a

/-- The pre-reverb mixed value of one output sample (lines 72-126 of the
source): run the voice loop from `mixed = 0, active = 0`, then
`if (active > 0) mixed = (mixed / active) * VOLUME`. -/
noncomputable def mixSample (vs : List Voice) : ℝ :=
  let p := mixLoop vs 0 0
  if 0 < p.2 then p.1 / (p.2 : ℝ) * (VOLUME : ℝ) else p.1

/-- Reverb delay line state: the buffer (line 48 of the source) and the write
cursor `reverbIndex` (line 49). -/
structure ReverbState where
  buf : List ℝ
  idx : ℕ

/-- Initial reverb state, lines 48-49 of the source: `DELAY_SIZE` zeros,
cursor 0. -/
def reverbInit : ReverbState := ⟨List.replicate DELAY_SIZE 0, 0⟩

/-- Lines 128-137 of the source: read the stored value at the cursor times
the feedback, add it to the dry sample, store the wet result back at the same
cursor position, and advance the cursor modulo `DELAY_SIZE`. -/
noncomputable def reverbStep (fb : ℝ) (s : ReverbState) (mixed : ℝ) : ℝ × ReverbState :=
  let out := mixed + s.buf.getD s.idx 0 * fb
  (out, ⟨s.buf.set s.idx out, (s.idx + 1) % DELAY_SIZE⟩)

/-- Lines 140-141 of the source: the final value is written to both stereo
channels. -/
def stereoFrame (x : ℝ) : ℝ × ℝ := (x, x)

/-- Iterate the reverb over a sequence of dry input samples, collecting the
wet outputs. -/
noncomputable def reverbRun (fb : ℝ) : ReverbState → List ℝ → List ℝ × ReverbState
  | s, [] => ([], s)
  | s, d :: ds =>
      let p := reverbStep fb s d
      let q := reverbRun fb p.2 ds
      (p.1 :: q.1, q.2)

/-- Key-to-note table, lines 26-30 of the source. -/
def keyNoteMap : List (Char × ℤ) :=
  [('A', 57), ('W', 58), ('S', 59), ('E', 60), ('D', 61), ('F', 62), ('T', 63), ('G', 64),
   ('Y', 65), ('H', 66), ('U', 67), ('J', 68), ('K', 69), ('O', 70), ('L', 71), ('P', 72),
   (';', 73), (Char.ofNat 39, 74), ('Q', 72), ('Z', 48), ('X', 50), ('C', 52), ('V', 53),
   ('B', 55), ('N', 57)]

/-- Lookup in the key table; `(keyNote c).isSome` is `keyNoteMap.count(c)` in
the source. -/
def keyNote (c : Char) : Option ℤ :=
  keyNoteMap.lookup c

/-- Key-down handling on one voice, lines 164-168 of the source: set the
note, move to `ATTACK`, mark the key held, zero the elapsed time.  The
envelope field is not written. -/
def triggerVoice (v : Voice) (n : ℤ) : Voice :=
  { v with note := n, stage := ATTACK, keyDown := true, time := 0 }

/-- Key-up handling on one voice, lines 175-176 of the source: move to
`RELEASE`, clear the held flag. -/
def releaseVoice (v : Voice) : Voice :=
  { v with stage := RELEASE, keyDown := false }

/-- Key-down on note `n`, lines 163-168 of the source: `voices[note]`
default-constructs a fresh entry when the note is absent, otherwise reuses
the existing entry in place; either way the entry is retriggered. -/
def keyDownEvent (m : List (ℤ × Voice)) (n : ℤ) : List (ℤ × Voice) :=
  if (m.lookup n).isSome then
    m.map (fun p => if p.1 = n then (p.1, triggerVoice p.2 n) else p)
  else m ++ [(n, triggerVoice {} n)]

/-- The key-up sweep, lines 173-178 of the source: every voice with
`keyDown` set is released when the last polled character is not in the key
table; nothing happens when it is. -/
def keyUpPass (c : Char) (m : List (ℤ × Voice)) : List (ℤ × Voice) :=
  m.map (fun p =>
    if p.2.keyDown && !(keyNote c).isSome then (p.1, releaseVoice p.2) else p)

/-- One audio-callback iteration of the whole registry: every entry's voice
is advanced in place (the loop of lines 76-124 of the source mutates
entries and never erases them). -/
def audioTick (m : List (ℤ × Voice)) : List (ℤ × Voice) :=
  m.map (fun p => (p.1, stepVoice p.2))

/-- One full output sample of the engine (lines 72-143 of the source): mix
the registry's voices, apply the reverb with the global feedback, duplicate
to both channels, and return the advanced registry and reverb state. -/
noncomputable def tickSample (m : List (ℤ × Voice)) (s : ReverbState) :
    (ℝ × ℝ) × List (ℤ × Voice) × ReverbState :=
  let mixed := mixSample (m.map Prod.snd)
  let p := reverbStep (reverbFeedback : ℝ) s mixed
  (stereoFrame p.1, audioTick m, p.2)

/-- Voice states reachable in the running engine: creation by key-down on a
fresh entry, audio-callback steps, retriggering key-downs, and the key-up
sweep on a held voice. -/
inductive Reachable : Voice → Prop
  | init (n : ℤ) : Reachable (triggerVoice {} n)
  | audio {v} : Reachable v → Reachable (stepVoice v)
  | retrigger {v} (n : ℤ) : Reachable v → Reachable (triggerVoice v n)
  | keyUp {v} : Reachable v → v.keyDown = true → Reachable (releaseVoice v)

/-- State invariant maintained by every reachable voice. -/
def VoiceInv (v : Voice) : Prop :=
  0 ≤ v.envelope ∧ v.envelope ≤ 1 ∧
  (v.stage = DECAY → SUSTAIN_LEVEL ≤ v.envelope) ∧
  (v.stage = RELEASE → v.keyDown = false) ∧
  (v.stage = OFF → v.keyDown = false)

/-- Concrete voice used to evaluate the tone generator: note 60 held at the
sustain level. -/
def v60 : Voice :=
  { note := 60, stage := SUSTAIN, envelope := 4/5, keyDown := true }

/-- Concrete voice just released at envelope 0: key-down on note 57
immediately followed by the key-up sweep. -/
def vRelDone : Voice := releaseVoice (triggerVoice {} 57)

/-- Concrete registry with two held voices, for the key-up analysis. -/
def heldRegistry : List (ℤ × Voice) :=
  [(57, { note := 57, stage := SUSTAIN, envelope := 4/5, keyDown := true }),
   (59, { note := 59, stage := SUSTAIN, envelope := 4/5, keyDown := true })]

lemma abs_tanh_lt_one (x : ℝ) : |Real.tanh x| < 1 := by
  have hc := Real.cosh_pos x
  have h1 : Real.sinh x < Real.cosh x := Real.sinh_lt_cosh x
  have h2 : -Real.cosh x < Real.sinh x := by
    have h3 : Real.sinh (-x) < Real.cosh (-x) := Real.sinh_lt_cosh (-x)
    rw [Real.sinh_neg, Real.cosh_neg] at h3
    linarith
  rw [Real.tanh_eq_sinh_div_cosh, abs_div, abs_of_pos hc, div_lt_one hc]
  exact abs_lt.mpr ⟨h2, h1⟩

/-- Claim C2: for every time and frequency the oscillator returns
`tanh(s * 6)` for the centered sawtooth `s = 2*(t*f - floor(t*f + 0.5))`,
and that value always lies in `[-1, 1]`. -/
theorem oscillator_saturation (t f : ℝ) :
    getSaw t f = Real.tanh ((2 * (t * f - (⌊t * f + 1/2⌋ : ℤ))) * 6) ∧
    -1 ≤ getSaw t f ∧ getSaw t f ≤ 1 := by
  refine ⟨rfl, ?_, ?_⟩ <;>
  · have h := abs_tanh_lt_one ((2 * (t * f - (⌊t * f + 1/2⌋ : ℤ))) * 6)
    rw [abs_lt] at h
    unfold getSaw
    linarith [h.1, h.2]

lemma reverbRun_zero_feedback (ds : List ℝ) : ∀ s0 : ReverbState,
    (reverbRun 0 s0 ds).1 = ds := by
  induction ds with
  | nil => intro s0; rfl
  | cons d ds ih => intro s0; simp [reverbRun, reverbStep, ih]

/-- Claim C6: each reverb step outputs `dry + stored*feedback`, writes that
wet value back at the same cursor position, the engine duplicates it to both
stereo channels, and with feedback coefficient 0 the wet output sequence
equals the dry input sequence exactly. -/
theorem reverb_feedback_relation (fb mixed : ℝ) (s : ReverbState)
    (m : List (ℤ × Voice)) (rs : ReverbState) :
    (reverbStep fb s mixed).1 = mixed + s.buf.getD s.idx 0 * fb ∧
    (reverbStep fb s mixed).2.buf = s.buf.set s.idx (reverbStep fb s mixed).1 ∧
    (tickSample m rs).1 =
      ((reverbStep (reverbFeedback : ℝ) rs (mixSample (m.map Prod.snd))).1,
       (reverbStep (reverbFeedback : ℝ) rs (mixSample (m.map Prod.snd))).1) ∧
    (∀ (s0 : ReverbState) (ds : List ℝ), (reverbRun 0 s0 ds).1 = ds) := by
  refine ⟨rfl, rfl, rfl, fun s0 ds => reverbRun_zero_feedback ds s0⟩

/-- Claim C7: the delay line is two seconds of samples long at the operating
sample rate, and the write cursor stays in `[0, DELAY_SIZE)`, advancing by
exactly one position per output sample and wrapping at the end; the buffer
length never changes. -/
theorem delay_line_invariant (fb mixed : ℝ) (s : ReverbState)
    (h : s.idx < DELAY_SIZE) :
    DELAY_SIZE = 2 * SAMPLE_RATE ∧
    reverbInit.buf.length = DELAY_SIZE ∧ reverbInit.idx = 0 ∧
    (reverbStep fb s mixed).2.idx = (s.idx + 1) % DELAY_SIZE ∧
    (reverbStep fb s mixed).2.idx < DELAY_SIZE ∧
    (s.idx + 1 < DELAY_SIZE → (reverbStep fb s mixed).2.idx = s.idx + 1) ∧
    (s.idx + 1 = DELAY_SIZE → (reverbStep fb s mixed).2.idx = 0) ∧
    (reverbStep fb s mixed).2.buf.length = s.buf.length := by
  refine ⟨by norm_num [DELAY_SIZE, SAMPLE_RATE, Nat.mul_comm],
    by simp [reverbInit], rfl, rfl, ?_, ?_, ?_, by simp [reverbStep]⟩
  · exact Nat.mod_lt _ (by norm_num [DELAY_SIZE, SAMPLE_RATE])
  · intro hlt
    show (s.idx + 1) % DELAY_SIZE = s.idx + 1
    exact Nat.mod_eq_of_lt hlt
  · intro heq
    show (s.idx + 1) % DELAY_SIZE = 0
    rw [heq, Nat.mod_self]

/-- Witness for `delay_line_invariant` at the initial reverb state. -/
theorem delay_line_invariant_witness :
    reverbInit.idx < DELAY_SIZE ∧
    (reverbStep 0 reverbInit 0).2.idx = (reverbInit.idx + 1) % DELAY_SIZE :=
  ⟨by norm_num [reverbInit, DELAY_SIZE, SAMPLE_RATE],
   (delay_line_invariant 0 0 reverbInit
      (by norm_num [reverbInit, DELAY_SIZE, SAMPLE_RATE])).2.2.2.1⟩

lemma lookup_update_triggered (m : List (ℤ × Voice)) (n : ℤ) (v : Voice)
    (h : m.lookup n = some v) :
    (m.map (fun p => if p.1 = n then (p.1, triggerVoice p.2 n) else p)).lookup n
      = some (triggerVoice v n) := by
  induction m with
  | nil => simp at h
  | cons p m ih =>
      obtain ⟨k, b⟩ := p
      by_cases hp : k = n
      · have hbeq : (n == k) = true := beq_iff_eq.mpr hp.symm
        rw [List.lookup_cons, hbeq, Option.some_inj] at h
        simp [List.lookup_cons, hp, hbeq, h]
      · have hbeq : (n == k) = false := beq_eq_false_iff_ne.mpr (fun he => hp he.symm)
        rw [List.lookup_cons, hbeq] at h
        simpa [List.lookup_cons, hp, hbeq] using ih h

lemma keyDownEvent_of_present (m : List (ℤ × Voice)) (n : ℤ) (v : Voice)
    (h : m.lookup n = some v) :
    (keyDownEvent m n).lookup n = some (triggerVoice v n) ∧
    (keyDownEvent m n).length = m.length := by
  have hs : (m.lookup n).isSome = true := by rw [h]; rfl
  unfold keyDownEvent
  rw [if_pos hs]
  exact ⟨lookup_update_triggered m n v h, List.length_map _ _⟩

/-- Claim C8: a key-down on a note whose voice is already present updates
that entry in place to `ATTACK` with `time = 0`, and never writes the
envelope field, whatever its current value. -/
theorem retrigger_keeps_envelope (m : List (ℤ × Voice)) (n : ℤ) (v : Voice)
    (h : m.lookup n = some v) :
    (keyDownEvent m n).lookup n = some (triggerVoice v n) ∧
    (triggerVoice v n).stage = ATTACK ∧
    (triggerVoice v n).time = 0 ∧
    (triggerVoice v n).envelope = v.envelope :=
  ⟨(keyDownEvent_of_present m n v h).1, rfl, rfl, rfl⟩

/-- Witness for `retrigger_keeps_envelope` on a held registry. -/
theorem retrigger_keeps_envelope_witness :
    heldRegistry.lookup 57 = some
      { note := 57, stage := SUSTAIN, envelope := 4/5, keyDown := true } ∧
    (triggerVoice { note := 57, stage := SUSTAIN, envelope := 4/5, keyDown := true } 57).envelope
      = (4/5 : ℚ) :=
  ⟨rfl, (retrigger_keeps_envelope heldRegistry 57
      { note := 57, stage := SUSTAIN, envelope := 4/5, keyDown := true }
      rfl).2.2.2⟩

/-- Counterexample to claim C9: after the key-up sweep with an unmapped last
character, both held voices of `heldRegistry` are in `RELEASE` — the sweep
released two voices in one pass, not a single matching one. -/
theorem keyup_releases_two_not_one :
    ((keyUpPass ' ' heldRegistry).countP (fun p => p.2.stage == RELEASE)) = 2 ∧
    (heldRegistry.countP (fun p => p.2.stage == RELEASE)) = 0 ∧
    ¬ ((keyUpPass ' ' heldRegistry).countP (fun p => p.2.stage == RELEASE) ≤ 1) := by
  refine ⟨by decide, by decide, by decide⟩

/-- Amended claim C9: in each polling iteration the key-up sweep releases
either no voice at all (when the last polled character maps to a note) or
every currently-held voice at once (when it does not); it never releases just
one of several held voices selectively. -/
theorem keyup_all_or_none (c : Char) (m : List (ℤ × Voice)) :
    ((keyNote c).isSome = true → keyUpPass c m = m) ∧
    ((keyNote c).isSome = false →
      keyUpPass c m = m.map (fun p => if p.2.keyDown then (p.1, releaseVoice p.2) else p)) := by
  constructor
  · intro h
    unfold keyUpPass
    rw [show (fun p : ℤ × Voice =>
        if p.2.keyDown && !(keyNote c).isSome then (p.1, releaseVoice p.2) else p)
        = fun p => p from funext fun p => by rw [h]; simp]
    exact List.map_id m
  · intro h
    unfold keyUpPass
    rw [show (fun p : ℤ × Voice =>
        if p.2.keyDown && !(keyNote c).isSome then (p.1, releaseVoice p.2) else p)
        = fun p => if p.2.keyDown then (p.1, releaseVoice p.2) else p from
      funext fun p => by rw [h]; simp]

/-- Witness for `keyup_all_or_none` at a mapped and an unmapped character. -/
theorem keyup_all_or_none_witness :
    (keyNote 'A').isSome = true ∧ keyUpPass 'A' heldRegistry = heldRegistry ∧
    (keyNote '!').isSome = false ∧
    keyUpPass '!' heldRegistry =
      heldRegistry.map (fun p => if p.2.keyDown then (p.1, releaseVoice p.2) else p) :=
  ⟨by decide, (keyup_all_or_none 'A' heldRegistry).1 (by decide),
   by decide, (keyup_all_or_none '!' heldRegistry).2 (by decide)⟩

/-- Statement-side envelope transition, transcribed from the claim's wording
of the per-sample rules (rates, clamp thresholds and stage moves), to be
compared against the source-side `stepVoice`. -/
def envStepClaim : EnvelopeStage → ℚ → EnvelopeStage × ℚ
  | ATTACK, env =>
      if 1 ≤ env + 1 / (ATTACK_TIME * (SAMPLE_RATE : ℚ)) then (DECAY, 1)
      else (ATTACK, env + 1 / (ATTACK_TIME * (SAMPLE_RATE : ℚ)))
  | DECAY, env =>
      if env - (1 - SUSTAIN_LEVEL) / (DECAY_TIME * (SAMPLE_RATE : ℚ)) ≤ SUSTAIN_LEVEL then
        (SUSTAIN, SUSTAIN_LEVEL)
      else (DECAY, env - (1 - SUSTAIN_LEVEL) / (DECAY_TIME * (SAMPLE_RATE : ℚ)))
  | SUSTAIN, env => (SUSTAIN, env)
  | RELEASE, env =>
      if env - SUSTAIN_LEVEL / (RELEASE_TIME * (SAMPLE_RATE : ℚ)) ≤ 0 then (OFF, 0)
      else (RELEASE, env - SUSTAIN_LEVEL / (RELEASE_TIME * (SAMPLE_RATE : ℚ)))
  | OFF, env => (OFF, env)

lemma stepVoice_off {v : Voice} (h : v.stage = OFF) : stepVoice v = v := by
  unfold stepVoice
  rw [h]

lemma stepVoice_attack {v : Voice} (h : v.stage = ATTACK) :
    stepVoice v =
      if 1 ≤ v.envelope + 1 / (ATTACK_TIME * (SAMPLE_RATE : ℚ)) then
        { v with time := v.time + dt, envelope := 1, stage := DECAY }
      else
        { v with time := v.time + dt, stage := ATTACK,
                 envelope := v.envelope + 1 / (ATTACK_TIME * (SAMPLE_RATE : ℚ)) } := by
  unfold stepVoice
  rw [h]

lemma stepVoice_decay {v : Voice} (h : v.stage = DECAY) :
    stepVoice v =
      if v.envelope - (1 - SUSTAIN_LEVEL) / (DECAY_TIME * (SAMPLE_RATE : ℚ)) ≤ SUSTAIN_LEVEL then
        { v with time := v.time + dt, envelope := SUSTAIN_LEVEL, stage := SUSTAIN }
      else
        { v with time := v.time + dt, stage := DECAY,
                 envelope := v.envelope - (1 - SUSTAIN_LEVEL) / (DECAY_TIME * (SAMPLE_RATE : ℚ)) } := by
  unfold stepVoice
  rw [h]

lemma stepVoice_sustain {v : Voice} (h : v.stage = SUSTAIN) :
    stepVoice v = { v with time := v.time + dt, stage := SUSTAIN } := by
  unfold stepVoice
  rw [h]

lemma stepVoice_release {v : Voice} (h : v.stage = RELEASE) :
    stepVoice v =
      if v.envelope - SUSTAIN_LEVEL / (RELEASE_TIME * (SAMPLE_RATE : ℚ)) ≤ 0 then
        { v with time := v.time + dt, envelope := 0, stage := OFF }
      else
        { v with time := v.time + dt, stage := RELEASE,
                 envelope := v.envelope - SUSTAIN_LEVEL / (RELEASE_TIME * (SAMPLE_RATE : ℚ)) } := by
  unfold stepVoice
  rw [h]

lemma contributes_off {v : Voice} (h : v.stage = OFF) : contributes v = false := by
  unfold contributes
  rw [h]

lemma voiceContrib_off {v : Voice} (h : v.stage = OFF) : voiceContrib v = 0 := by
  unfold voiceContrib
  rw [contributes_off h]
  rfl

/-- Claim C3: for every non-OFF voice the per-sample update is exactly the
described state machine (rates, clamps, stage moves); when a RELEASE envelope
reaches or crosses zero the stage becomes OFF, the envelope is clamped to 0,
and the voice contributes nothing to this sample nor to any later one. -/
theorem envelope_state_machine (v : Voice) (h : v.stage ≠ OFF) :
    ((stepVoice v).stage, (stepVoice v).envelope) = envStepClaim v.stage v.envelope ∧
    (stepVoice v).time = v.time + dt ∧
    (v.stage = RELEASE →
      v.envelope - SUSTAIN_LEVEL / (RELEASE_TIME * (SAMPLE_RATE : ℚ)) ≤ 0 →
      (stepVoice v).stage = OFF ∧ (stepVoice v).envelope = 0 ∧
      contributes v = false ∧ voiceContrib v = 0 ∧
      ∀ k, voiceContrib (stepVoice^[k] (stepVoice v)) = 0) := by
  refine ⟨?_, ?_, ?_⟩
  · cases hs : v.stage
    · exact absurd hs h
    · rw [stepVoice_attack hs]
      simp only [envStepClaim]
      split_ifs <;> rfl
    · rw [stepVoice_decay hs]
      simp only [envStepClaim]
      split_ifs <;> rfl
    · rw [stepVoice_sustain hs]
      simp only [envStepClaim]
    · rw [stepVoice_release hs]
      simp only [envStepClaim]
      split_ifs <;> rfl
  · cases hs : v.stage
    · exact absurd hs h
    · rw [stepVoice_attack hs]
      split_ifs <;> rfl
    · rw [stepVoice_decay hs]
      split_ifs <;> rfl
    · rw [stepVoice_sustain hs]
    · rw [stepVoice_release hs]
      split_ifs <;> rfl
  · intro hr hle
    have hstep : stepVoice v =
        { v with time := v.time + dt, envelope := 0, stage := OFF } := by
      rw [stepVoice_release hr, if_pos hle]
    have hcon : contributes v = false := by
      unfold contributes
      rw [hr]
      simp [hle]
    have hoffstage : (stepVoice v).stage = OFF := by rw [hstep]
    refine ⟨hoffstage, by rw [hstep], hcon,
      by unfold voiceContrib; rw [hcon]; rfl, ?_⟩
    intro k
    rw [Function.iterate_fixed (stepVoice_off hoffstage) k]
    exact voiceContrib_off hoffstage

/-- Witness for `envelope_state_machine` at the just-released voice. -/
theorem envelope_state_machine_witness :
    vRelDone.stage ≠ OFF ∧
    ((stepVoice vRelDone).stage, (stepVoice vRelDone).envelope)
      = envStepClaim vRelDone.stage vRelDone.envelope :=
  ⟨by decide, (envelope_state_machine vRelDone (by decide)).1⟩

lemma attack_rate_pos : (0:ℚ) < 1 / (ATTACK_TIME * (SAMPLE_RATE : ℚ)) := by
  norm_num [ATTACK_TIME, SAMPLE_RATE]

lemma decay_rate_nonneg :
    (0:ℚ) ≤ (1 - SUSTAIN_LEVEL) / (DECAY_TIME * (SAMPLE_RATE : ℚ)) := by
  norm_num [SUSTAIN_LEVEL, DECAY_TIME, SAMPLE_RATE]

lemma release_rate_nonneg :
    (0:ℚ) ≤ SUSTAIN_LEVEL / (RELEASE_TIME * (SAMPLE_RATE : ℚ)) := by
  norm_num [SUSTAIN_LEVEL, RELEASE_TIME, SAMPLE_RATE]

lemma sustain_level_nonneg : (0:ℚ) ≤ SUSTAIN_LEVEL := by norm_num [SUSTAIN_LEVEL]

lemma voiceInv_step {v : Voice} (h : VoiceInv v) : VoiceInv (stepVoice v) := by
  obtain ⟨h0, h1, hd, hr, ho⟩ := h
  cases hs : v.stage
  case OFF =>
      rw [stepVoice_off hs]
      exact ⟨h0, h1, hd, hr, ho⟩
  case ATTACK =>
      rw [stepVoice_attack hs]
      split_ifs with hle
      · refine ⟨?_, ?_, ?_, ?_, ?_⟩ <;> dsimp only
        · norm_num
        · norm_num
        · intro _
          norm_num [SUSTAIN_LEVEL]
        · intro hc
          exact absurd hc (by decide)
        · intro hc
          exact absurd hc (by decide)
      · refine ⟨?_, ?_, ?_, ?_, ?_⟩ <;> dsimp only
        · have := attack_rate_pos
          linarith
        · rw [not_le] at hle
          linarith
        · intro hc
          exact absurd hc (by decide)
        · intro hc
          exact absurd hc (by decide)
        · intro hc
          exact absurd hc (by decide)
  case DECAY =>
      rw [stepVoice_decay hs]
      split_ifs with hle
      · refine ⟨?_, ?_, ?_, ?_, ?_⟩ <;> dsimp only
        · exact sustain_level_nonneg
        · norm_num [SUSTAIN_LEVEL]
        · intro hc
          exact absurd hc (by decide)
        · intro hc
          exact absurd hc (by decide)
        · intro hc
          exact absurd hc (by decide)
      · rw [not_le] at hle
        refine ⟨?_, ?_, ?_, ?_, ?_⟩ <;> dsimp only
        · have := sustain_level_nonneg
          linarith
        · have := decay_rate_nonneg
          linarith
        · intro _
          linarith
        · intro hc
          exact absurd hc (by decide)
        · intro hc
          exact absurd hc (by decide)
  case SUSTAIN =>
      rw [stepVoice_sustain hs]
      refine ⟨h0, h1, ?_, ?_, ?_⟩ <;> dsimp only <;> intro hc <;>
        exact absurd hc (by decide)
  case RELEASE =>
      rw [stepVoice_release hs]
      split_ifs with hle
      · refine ⟨?_, ?_, ?_, ?_, ?_⟩ <;> dsimp only
        · norm_num
        · norm_num
        · intro hc
          exact absurd hc (by decide)
        · intro hc
          exact absurd hc (by decide)
        · intro _
          exact hr hs
      · rw [not_le] at hle
        refine ⟨?_, ?_, ?_, ?_, ?_⟩ <;> dsimp only
        · linarith
        · have := release_rate_nonneg
          linarith
        · intro hc
          exact absurd hc (by decide)
        · intro _
          exact hr hs
        · intro hc
          exact absurd hc (by decide)

lemma reachable_inv {v : Voice} (h : Reachable v) : VoiceInv v := by
  induction h with
  | init n =>
      refine ⟨le_refl 0, by norm_num [triggerVoice], ?_, ?_, ?_⟩ <;> intro hc <;>
        simp [triggerVoice] at hc
  | audio hv ih => exact voiceInv_step ih
  | retrigger n hv ih =>
      obtain ⟨h0, h1, _, _, _⟩ := ih
      refine ⟨h0, h1, ?_, ?_, ?_⟩ <;> intro hc <;> simp [triggerVoice] at hc
  | keyUp hv hk ih =>
      obtain ⟨h0, h1, _, _, _⟩ := ih
      refine ⟨h0, h1, ?_, ?_, ?_⟩
      · intro hc
        simp [releaseVoice] at hc
      · intro _
        rfl
      · intro hc
        simp [releaseVoice] at hc

/-- Claim C4: every reachable voice keeps its envelope in `[0, 1]`, and one
audio step never decreases it in ATTACK, never increases it in DECAY or
RELEASE, and leaves it unchanged in SUSTAIN. -/
theorem envelope_bounds_and_monotone (v : Voice) (h : Reachable v) :
    (0 ≤ v.envelope ∧ v.envelope ≤ 1) ∧
    (v.stage = ATTACK → v.envelope ≤ (stepVoice v).envelope) ∧
    (v.stage = DECAY → (stepVoice v).envelope ≤ v.envelope) ∧
    (v.stage = RELEASE → (stepVoice v).envelope ≤ v.envelope) ∧
    (v.stage = SUSTAIN → (stepVoice v).envelope = v.envelope) := by
  obtain ⟨h0, h1, hd, _, _⟩ := reachable_inv h
  refine ⟨⟨h0, h1⟩, ?_, ?_, ?_, ?_⟩
  · intro hs
    rw [stepVoice_attack hs]
    split_ifs with hle
    · exact h1
    · dsimp only
      have := attack_rate_pos
      linarith
  · intro hs
    rw [stepVoice_decay hs]
    split_ifs with hle
    · exact hd hs
    · dsimp only
      have := decay_rate_nonneg
      linarith
  · intro hs
    rw [stepVoice_release hs]
    split_ifs with hle
    · exact h0
    · dsimp only
      have := release_rate_nonneg
      linarith
  · intro hs
    rw [stepVoice_sustain hs]

/-- Witness for `envelope_bounds_and_monotone` at a freshly triggered voice. -/
theorem envelope_bounds_and_monotone_witness :
    (0 ≤ (triggerVoice {} 60).envelope ∧ (triggerVoice {} 60).envelope ≤ 1) ∧
    ((triggerVoice {} 60).stage = ATTACK →
      (triggerVoice {} 60).envelope ≤ (stepVoice (triggerVoice {} 60)).envelope) :=
  ⟨(envelope_bounds_and_monotone (triggerVoice {} 60) (Reachable.init 60)).1,
   (envelope_bounds_and_monotone (triggerVoice {} 60) (Reachable.init 60)).2.1⟩

lemma mixLoop_cons (v : Voice) (vs : List Voice) (m : ℝ) (a : ℕ) :
    mixLoop (v :: vs) m a =
      if contributes v then mixLoop vs (m + voiceContrib v) (a + 1)
      else mixLoop vs m a := rfl

lemma mixLoop_spec (vs : List Voice) : ∀ (m : ℝ) (a : ℕ),
    mixLoop vs m a =
      (m + ((vs.filter contributes).map voiceContrib).sum, a + vs.countP contributes) := by
  induction vs with
  | nil =>
      intro m a
      simp [mixLoop]
  | cons v vs ih =>
      intro m a
      by_cases hv : contributes v
      · rw [mixLoop_cons, if_pos hv, ih]
        rw [List.filter_cons_of_pos hv, List.countP_cons_of_pos _ _ hv]
        simp only [List.map_cons, List.sum_cons, Prod.mk.injEq]
        exact ⟨by ring, by omega⟩
      · rw [mixLoop_cons, if_neg hv, ih]
        rw [List.filter_cons_of_neg hv, List.countP_cons_of_neg _ _ hv]

/-- Claim C5: the pre-reverb mixed value is the sum of the contributing
voices' rendered samples, divided by the number of contributing voices and
scaled by the master volume when that count is positive, and exactly 0 when
no voice contributes; with exactly one contributing voice it is that voice's
rendered sample times the volume constant. -/
theorem mixer_normalization (vs : List Voice) (w : Voice)
    (hw : contributes w = true) :
    (mixSample vs =
      if 0 < vs.countP contributes then
        ((vs.filter contributes).map voiceContrib).sum / (vs.countP contributes : ℝ)
          * (VOLUME : ℚ)
      else 0) ∧
    mixSample [w] = voiceContrib w * (VOLUME : ℚ) := by
  constructor
  · unfold mixSample
    rw [mixLoop_spec vs 0 0]
    simp only [zero_add, Nat.zero_add]
    by_cases hpos : 0 < vs.countP contributes
    · rw [if_pos hpos, if_pos hpos]
    · rw [if_neg hpos, if_neg hpos]
      have hz : vs.countP contributes = 0 := Nat.eq_zero_of_not_pos hpos
      have hfil : vs.filter contributes = [] := by
        rw [List.filter_eq_nil_iff]
        intro a ha
        intro hca
        rw [List.countP_eq_zero] at hz
        exact hz a ha hca
      rw [hfil]
      simp
  · unfold mixSample
    rw [mixLoop_spec [w] 0 0]
    rw [List.filter_cons_of_pos hw, List.countP_cons_of_pos _ _ hw]
    simp

/-- Witness for `mixer_normalization` with the single held voice `v60`. -/
theorem mixer_normalization_witness :
    contributes v60 = true ∧ mixSample [v60] = voiceContrib v60 * (VOLUME : ℚ) :=
  ⟨rfl, (mixer_normalization [v60] v60 rfl).2⟩

lemma getSaw_pos {t f : ℝ} (h0 : 0 < t * f) (h1 : t * f < 1/2) :
    0 < getSaw t f := by
  have hfloor : ⌊t * f + 1/2⌋ = 0 :=
    Int.floor_eq_zero_iff.mpr (Set.mem_Ico.mpr ⟨by linarith, by linarith⟩)
  unfold getSaw
  rw [hfloor]
  rw [Real.tanh_eq_sinh_div_cosh]
  refine div_pos (Real.sinh_pos_iff.mpr ?_) (Real.cosh_pos _)
  push_cast
  linarith

lemma midiToFreq_sixty_bounds : 220 ≤ midiToFreq 60 ∧ midiToFreq 60 ≤ 440 := by
  unfold midiToFreq
  have hexp : ((((60:ℤ) : ℝ)) - 69) / 12 = -(3/4 : ℝ) := by norm_num
  rw [hexp]
  constructor
  · have hhalf : (2:ℝ) ^ (-(1:ℝ)) = 1/2 := by
      rw [show (-(1:ℝ)) = ((-1 : ℤ) : ℝ) from by norm_num, Real.rpow_intCast]
      norm_num
    have hmono : (2:ℝ) ^ (-(1:ℝ)) ≤ (2:ℝ) ^ (-(3/4 : ℝ)) :=
      Real.rpow_le_rpow_of_exponent_le (by norm_num) (by norm_num)
    rw [hhalf] at hmono
    linarith
  · have hone : (2:ℝ) ^ (-(3/4 : ℝ)) ≤ 1 :=
      Real.rpow_le_one_of_one_le_of_nonpos (by norm_num) (by norm_num)
    linarith

lemma bankSum_pos_v60 :
    0 < bankSum (((1 : ℚ)/44100 : ℚ) : ℝ) (midiToFreq 60) := by
  unfold bankSum
  apply Finset.sum_pos
  · intro i hi
    obtain ⟨hl, hu⟩ := Finset.mem_Icc.mp hi
    have hi1 : (-13 : ℝ) ≤ (i : ℝ) := by exact_mod_cast hl
    have hi2 : (i : ℝ) ≤ 13 := by exact_mod_cast hu
    obtain ⟨hf1, hf2⟩ := midiToFreq_sixty_bounds
    have hcast : (((1 : ℚ)/44100 : ℚ) : ℝ) = 1/44100 := by push_cast; norm_num
    apply getSaw_pos
    · rw [hcast]
      nlinarith
    · rw [hcast]
      nlinarith
  · exact Finset.nonempty_Icc.mpr (by norm_num)

/-- Counterexample to claim C1: at the held voice `v60` one sample into its
life, the rendered contribution is not the oscillator-bank sum divided by the
bank size 27 times the envelope, because the source divides by
`NUM_VOICES = 121` instead. -/
theorem tone_divisor_not_banksize :
    voiceContrib v60 ≠
      bankSum ((stepVoice v60).time : ℝ) (midiToFreq v60.note) / 27
        * ((stepVoice v60).envelope : ℝ) := by
  have htime : (stepVoice v60).time = (1 : ℚ)/44100 := by
    rw [stepVoice_sustain rfl]
    norm_num [v60, dt, SAMPLE_RATE]
  have hnote : v60.note = 60 := rfl
  have henvq : (stepVoice v60).envelope = (4/5 : ℚ) := rfl
  have hS : 0 < bankSum ((stepVoice v60).time : ℝ) (midiToFreq v60.note) := by
    rw [htime, hnote]
    exact bankSum_pos_v60
  have hE : (0:ℝ) < ((stepVoice v60).envelope : ℝ) := by
    rw [henvq]
    norm_num
  have hcontrib : voiceContrib v60 =
      bankSum ((stepVoice v60).time : ℝ) (midiToFreq v60.note) / (NUM_VOICES : ℝ)
        * ((stepVoice v60).envelope : ℝ) := rfl
  rw [hcontrib]
  intro heq
  have hdiv : bankSum ((stepVoice v60).time : ℝ) (midiToFreq v60.note) / (NUM_VOICES : ℝ)
      < bankSum ((stepVoice v60).time : ℝ) (midiToFreq v60.note) / 27 := by
    apply div_lt_div_of_pos_left hS (by norm_num)
    norm_num [NUM_VOICES]
  have hlt := mul_lt_mul_of_pos_right hdiv hE
  exact absurd heq (ne_of_lt hlt)

/-- Amended claim C1: the per-voice sample is the sum of the 27 detuned
oscillator samples (offsets −13…13 at 0.005 Hz, around the note's base
frequency, at the voice's post-update time) divided by `NUM_VOICES = 121` —
not by the bank size 27 — and multiplied by the voice's current envelope. -/
theorem tone_generator_contribution (v : Voice) (h : contributes v = true) :
    voiceContrib v =
      (∑ i ∈ Finset.Icc (-13 : ℤ) 13,
        getSaw ((stepVoice v).time : ℝ) (midiToFreq v.note + (i : ℝ) * (5 / 1000)))
        / (NUM_VOICES : ℝ) * ((stepVoice v).envelope : ℝ) ∧
    NUM_VOICES = 121 := by
  refine ⟨?_, rfl⟩
  simp only [voiceContrib, h, if_true]
  rfl

/-- Witness for `tone_generator_contribution` at the held voice `v60`. -/
theorem tone_generator_contribution_witness :
    contributes v60 = true ∧
    voiceContrib v60 =
      (∑ i ∈ Finset.Icc (-13 : ℤ) 13,
        getSaw ((stepVoice v60).time : ℝ) (midiToFreq v60.note + (i : ℝ) * (5 / 1000)))
        / (NUM_VOICES : ℝ) * ((stepVoice v60).envelope : ℝ) :=
  ⟨rfl, (tone_generator_contribution v60 rfl).1⟩

lemma map_fst_preserved (f : ℤ × Voice → ℤ × Voice)
    (hf : ∀ p, (f p).1 = p.1) :
    ∀ m : List (ℤ × Voice), (m.map f).map Prod.fst = m.map Prod.fst := by
  intro m
  induction m with
  | nil => rfl
  | cons p m ih =>
      simp only [List.map_cons, ih, hf]

lemma keyDownEvent_keys (m : List (ℤ × Voice)) (n : ℤ) (k : ℤ)
    (hk : k ∈ m.map Prod.fst) : k ∈ (keyDownEvent m n).map Prod.fst := by
  unfold keyDownEvent
  split
  · rw [map_fst_preserved (fun p => if p.1 = n then (p.1, triggerVoice p.2 n) else p)
        (fun p => by
          show (if p.1 = n then (p.1, triggerVoice p.2 n) else p).1 = p.1
          split <;> rfl) m]
    exact hk
  · rw [List.map_append]
    exact List.mem_append_left _ hk

/-- Claim C10: registry entries are never removed by any engine operation —
the audio tick and the key-up sweep keep the key list unchanged and a
key-down can only add a key; when a release completes, the entry survives
with stage OFF, envelope 0 and `keyDown` false, OFF entries are skipped and
left untouched by the audio tick, and a later key-down on a present note
retriggers that same entry in place. -/
theorem registry_never_shrinks (m : List (ℤ × Voice)) (n : ℤ) (c : Char)
    (v : Voice) :
    (audioTick m).map Prod.fst = m.map Prod.fst ∧
    (keyUpPass c m).map Prod.fst = m.map Prod.fst ∧
    (∀ k, k ∈ m.map Prod.fst → k ∈ (keyDownEvent m n).map Prod.fst) ∧
    (Reachable v → v.stage = RELEASE →
      v.envelope - SUSTAIN_LEVEL / (RELEASE_TIME * (SAMPLE_RATE : ℚ)) ≤ 0 →
      (stepVoice v).stage = OFF ∧ (stepVoice v).envelope = 0 ∧
      (stepVoice v).keyDown = false ∧ contributes v = false) ∧
    (v.stage = OFF → stepVoice v = v ∧ contributes v = false) ∧
    (m.lookup n = some v →
      (keyDownEvent m n).length = m.length ∧
      (keyDownEvent m n).lookup n = some (triggerVoice v n)) := by
  refine ⟨map_fst_preserved (fun p => (p.1, stepVoice p.2)) (fun p => rfl) m,
    map_fst_preserved
      (fun p => if p.2.keyDown && !(keyNote c).isSome then (p.1, releaseVoice p.2) else p)
      (fun p => by
        show (if p.2.keyDown && !(keyNote c).isSome then (p.1, releaseVoice p.2) else p).1
          = p.1
        split <;> rfl) m,
    fun k => keyDownEvent_keys m n k, ?_,
    fun hoff => ⟨stepVoice_off hoff, contributes_off hoff⟩,
    fun hl => ⟨(keyDownEvent_of_present m n v hl).2,
               (keyDownEvent_of_present m n v hl).1⟩⟩
  intro hreach hrel hle
  obtain ⟨_, _, _, hr, _⟩ := reachable_inv hreach
  have hstep : stepVoice v =
      { v with time := v.time + dt, envelope := 0, stage := OFF } := by
    rw [stepVoice_release hrel, if_pos hle]
  refine ⟨by rw [hstep], by rw [hstep], ?_, ?_⟩
  · rw [hstep]
    exact hr hrel
  · unfold contributes
    rw [hrel]
    simp [hle]

/-- Witness for `registry_never_shrinks` at the just-released voice in a
one-entry registry. -/
theorem registry_never_shrinks_witness :
    vRelDone.stage = RELEASE ∧
    vRelDone.envelope - SUSTAIN_LEVEL / (RELEASE_TIME * (SAMPLE_RATE : ℚ)) ≤ 0 ∧
    ((stepVoice vRelDone).stage = OFF ∧ (stepVoice vRelDone).envelope = 0 ∧
     (stepVoice vRelDone).keyDown = false ∧ contributes vRelDone = false) ∧
    ((keyDownEvent [(57, vRelDone)] 57).length = [(57, vRelDone)].length ∧
     (keyDownEvent [(57, vRelDone)] 57).lookup 57
       = some (triggerVoice vRelDone 57)) :=
  ⟨rfl,
   by norm_num [vRelDone, releaseVoice, triggerVoice, SUSTAIN_LEVEL,
     RELEASE_TIME, SAMPLE_RATE],
   (registry_never_shrinks [(57, vRelDone)] 57 'A' vRelDone).2.2.2.1
      (Reachable.keyUp (Reachable.init 57) rfl) rfl
      (by norm_num [vRelDone, releaseVoice, triggerVoice, SUSTAIN_LEVEL,
        RELEASE_TIME, SAMPLE_RATE]),
   (registry_never_shrinks [(57, vRelDone)] 57 'A' vRelDone).2.2.2.2.2 rfl⟩

end EchoSynth
